import Mathlib

/-!
Shallow embedding of the BrainSpy preprocessing scripts
(`preprocess.py` and `preprocess_gpu.py`) and proofs settling the
specification claims about them.

Python strings are modelled as `List Char`; filesystem paths appear either
flat (a single character list) or split into directory components plus a
file name, matching how the scripts alternate between `os.path.join` on
whole paths and on components.  Stage executions and external processes
are abstracted by an environment choosing, for every stage invocation,
whether it returns normally or raises (and which kind of exception);
everything the scripts themselves compute is translated directly.
-/

namespace BrainSpy

/-- Python strings, modelled as lists of characters. -/
abbrev Str : Type := List Char

/-! ## Output-path resolution (preprocess.py, lines 147-157)

`process_single_file` derives each stage's output path from the original
input file name: `os.path.splitext` drops the final extension, a residual
`.nii` is stripped, then `_{step_name}.nii.gz` is appended, and the file is
placed under `CURRENT_DIR/step_name/` mirroring the input's relative
directory. -/

/-- Index of the first `'.'` in a string (CPython `str.rfind('.')` applied
to the reversed string underlies `lastDotIdx?` below). -/
def firstDotIdx? : Str → Option Nat
  | [] => none
  | c :: rest => if c = '.' then some 0 else (firstDotIdx? rest).map (· + 1)

/-- Index of the last `'.'` in a string, if any. -/
def lastDotIdx? (s : Str) : Option Nat :=
  (firstDotIdx? s.reverse).map (fun j => s.length - 1 - j)

/-- Stem part of CPython `os.path.splitext` on a basename: split at the last
dot unless every character before that dot is itself a dot (the rule that
keeps `.bashrc`-style names whole). -/
def splitextStem (s : Str) : Str :=
  match lastDotIdx? s with
  | none => s
  | some i => if (s.take i).all (fun c => c = '.') then s else s.take i

/-- `base_name.endswith('.nii')` (preprocess.py line 154). -/
def endsNii (s : Str) : Bool := List.isSuffixOf ".nii".data s

/-- Lines 153-155: `splitext` stem, then strip a residual `.nii` suffix
(`base_name[:-4]`). -/
def baseNameOf (fileName : Str) : Str :=
  let b := splitextStem fileName
  if endsNii b then b.take (b.length - 4) else b

/-- Line 156: `f"{base_name}_{step_name}.nii.gz"`. -/
def outputFilename (fileName step : Str) : Str :=
  baseNameOf fileName ++ ('_' :: step) ++ ".nii.gz".data

/-- A resolved output location: directory components plus file name. -/
structure OutPath where
  dirs : List Str
  fname : Str
deriving DecidableEq

/-- Lines 147-157: the output path of one stage, determined by the ambient
current directory, the stage's name (`names[i]`), the input file's directory
relative to the dataset root, and the input file's basename.  `os.makedirs`
on the directory part is a side effect outside the path computation. -/
def resolveOutput (currentDir : List Str) (stepName : Str) (relDir : List Str)
    (fileName : Str) : OutPath :=
  ⟨currentDir ++ stepName :: relDir, outputFilename fileName stepName⟩

/-- `os.path.join` of the directory components with a final file name,
producing a flat path string. -/
def joinPath (p : OutPath) : Str :=
  p.dirs.foldr (fun d acc => d ++ '/' :: acc) p.fname

/-- The output path computed inside the loop of `process_single_file` for
stage index `i`: only `names[i]` enters the path, never the accumulated
chain of stage names. -/
def stepOutputPath (currentDir : List Str) (names : List Str) (i : Nat)
    (relDir : List Str) (fileName : Str) : OutPath :=
  resolveOutput currentDir (names.getD i []) relDir fileName

/-! ### Elementary string lemmas -/

theorem isPrefixOf_append_drop (p : Str) :
    ∀ s : Str, List.isPrefixOf p s = true → p ++ s.drop p.length = s := by
  induction p with
  | nil => intro s _; simp
  | cons a p' ih =>
    intro s h
    cases s with
    | nil => simp [List.isPrefixOf] at h
    | cons b s' =>
      simp only [List.isPrefixOf, Bool.and_eq_true, beq_iff_eq] at h
      obtain ⟨rfl, h2⟩ := h
      simpa using ih s' h2

theorem isPrefixOf_self_append (p t : Str) : List.isPrefixOf p (p ++ t) = true := by
  induction p with
  | nil => simp [List.isPrefixOf]
  | cons a p' ih => simp [List.isPrefixOf, ih]

theorem isSuffixOf_exists (p s : Str) (h : List.isSuffixOf p s = true) :
    ∃ g, s = g ++ p := by
  unfold List.isSuffixOf at h
  have h2 := isPrefixOf_append_drop _ _ h
  refine ⟨(s.reverse.drop p.reverse.length).reverse, ?_⟩
  have := congrArg List.reverse h2
  simpa using this.symm

theorem isSuffixOf_append_self (p g : Str) : List.isSuffixOf p (g ++ p) = true := by
  unfold List.isSuffixOf
  simp [isPrefixOf_self_append p.reverse g.reverse]

theorem firstDotIdx_revNii (t : Str) :
    firstDotIdx? ('i' :: 'i' :: 'n' :: '.' :: t) = some 3 := by
  rw [firstDotIdx?, if_neg (by decide), firstDotIdx?, if_neg (by decide),
    firstDotIdx?, if_neg (by decide), firstDotIdx?, if_pos rfl]
  rfl

theorem splitextStem_append_nii (g : Str) :
    splitextStem (g ++ ".nii".data) =
      if g.all (fun c => c = '.') then g ++ ".nii".data else g := by
  have hrev : (g ++ ".nii".data).reverse = 'i' :: 'i' :: 'n' :: '.' :: g.reverse := by
    rw [List.reverse_append]
    rfl
  have hlen : (g ++ ".nii".data).length = g.length + 4 := by
    simp [List.length_append]
  have hidx : lastDotIdx? (g ++ ".nii".data) = some g.length := by
    rw [lastDotIdx?, hrev, firstDotIdx_revNii]
    simp [hlen]
  have htake : (g ++ ".nii".data).take g.length = g := by
    simp [List.take_left g ".nii".data]
  rw [splitextStem, hidx]
  simp [htake]

theorem baseNameOf_append_nii (g : Str)
    (hstem : endsNii (splitextStem (g ++ ".nii".data)) = false) :
    baseNameOf (g ++ ".nii".data) = g := by
  rw [splitextStem_append_nii] at hstem
  by_cases hall : g.all (fun c => c = '.')
  · rw [if_pos hall] at hstem
    have htrue : endsNii (g ++ ".nii".data) = true := isSuffixOf_append_self _ _
    rw [htrue] at hstem
    simp at hstem
  · rw [if_neg hall] at hstem
    rw [baseNameOf, splitextStem_append_nii, if_neg hall]
    simp [hstem]

/-- Equality of resolved paths splits into equality of the per-stage
directory component plus relative directory, and of the file names. -/
theorem resolveOutput_eq_iff (cur relDir1 relDir2 : List Str) (s1 s2 f1 f2 : Str) :
    resolveOutput cur s1 relDir1 f1 = resolveOutput cur s2 relDir2 f2 ↔
      (s1 :: relDir1 = s2 :: relDir2 ∧ outputFilename f1 s1 = outputFilename f2 s2) := by
  constructor
  · intro h
    rw [resolveOutput, resolveOutput, OutPath.mk.injEq] at h
    exact ⟨List.append_cancel_left h.1, h.2⟩
  · intro ⟨h1, h2⟩
    rw [resolveOutput, resolveOutput, OutPath.mk.injEq]
    exact ⟨by rw [h1], h2⟩

/-- **C3** (counterexample): two distinct discovered input files — same
relative directory, basenames `y.nii` and `y.nii.nii`, both matched by the
`*.nii` glob — resolve to the identical output path, because
`os.path.splitext` removes only the final extension and line 154 then strips
one residual `.nii`.  This refutes the claim that distinct
(input file, stage chain) pairs never collide. -/
theorem c3_distinct_inputs_collide :
    resolveOutput ["/cur".data] ("skull_stripped".data) ["a".data] ("y.nii".data)
      = resolveOutput ["/cur".data] ("skull_stripped".data) ["a".data] ("y.nii.nii".data)
    ∧ ("y.nii".data : Str) ≠ "y.nii.nii".data := by
  constructor
  · decide
  · decide

/-- **C3** (amended): output-path resolution is a pure function of
(current dir, stage name, relative dir, file name) — determinism is
immediate — and it is collision-free on the domain the pipeline is meant
for: files whose name ends in `.nii` and whose `splitext` stem does not
itself still end in `.nii`.  On that domain, equal resolved paths force
equal stage names, equal relative directories and equal file names. -/
theorem c3_resolve_injective_on_clean_names (cur relDir1 relDir2 : List Str)
    (step1 step2 f1 f2 : Str)
    (h1 : endsNii f1 = true) (h2 : endsNii f2 = true)
    (h1s : endsNii (splitextStem f1) = false)
    (h2s : endsNii (splitextStem f2) = false)
    (heq : resolveOutput cur step1 relDir1 f1 = resolveOutput cur step2 relDir2 f2) :
    step1 = step2 ∧ relDir1 = relDir2 ∧ f1 = f2 := by
  obtain ⟨g1, rfl⟩ := isSuffixOf_exists _ _ h1
  obtain ⟨g2, rfl⟩ := isSuffixOf_exists _ _ h2
  rw [resolveOutput_eq_iff] at heq
  obtain ⟨hdirs, hfname⟩ := heq
  obtain ⟨hstep, hrel⟩ : step1 = step2 ∧ relDir1 = relDir2 := by
    simpa using hdirs
  subst hstep
  refine ⟨rfl, hrel, ?_⟩
  rw [outputFilename, outputFilename, baseNameOf_append_nii g1 h1s,
    baseNameOf_append_nii g2 h2s] at hfname
  have : g1 = g2 := List.append_cancel_right (List.append_cancel_right hfname)
  rw [this]

/-- Witness for C3 (amended): concrete instantiation with all hypotheses
discharged. -/
theorem c3_resolve_injective_on_clean_names_witness :
    endsNii ("scan1.nii".data) = true ∧
    endsNii (splitextStem ("scan1.nii".data)) = false ∧
    (("skull_stripped".data : Str) = "skull_stripped".data ∧
      (["a".data] : List Str) = ["a".data] ∧
      ("scan1.nii".data : Str) = "scan1.nii".data) :=
  ⟨by decide, by decide,
    c3_resolve_injective_on_clean_names ["/cur".data] ["a".data] ["a".data]
      ("skull_stripped".data) ("skull_stripped".data)
      ("scan1.nii".data) ("scan1.nii".data)
      (by decide) (by decide) (by decide) (by decide) rfl⟩

/-! ## The per-file stage loop (preprocess.py, lines 133-173)

`process_single_file` walks the command list in order inside a `try`;
stage `i` either returns normally or raises (non-zero exit, timeout, or
any other exception), in which case the inner `except` prints an error
message naming `names[i]` and the worker returns `False`.  The outcome of
each stage invocation is abstracted by an environment function
`outcome : Nat → StageOutcome`; everything else is translated directly.
The worker's observable result is its boolean return value together with
the failure attribution it emits, packaged below as `FileResult`. -/

/-- Kinds of exception a stage invocation can raise: `subprocess.TimeoutExpired`
(`check_call` with `timeout=`), `subprocess.CalledProcessError` (non-zero
exit), or any other in-process fault. -/
inductive ExnKind
  | timeoutExpired
  | calledProcessError
  | otherExn
deriving DecidableEq

/-- Result of one stage invocation, chosen by the environment. -/
inductive StageOutcome
  | ok
  | exn (e : ExnKind)
deriving DecidableEq

/-- The worker's observable outcome for one file: `success` models
`return True`; `failedAt i stage cause` models `return False` after the
inner `except` printed `"Error processing {file} with command {names[i]}"`
for the failing stage. -/
inductive FileResult
  | success
  | failedAt (i : Nat) (stage : Str) (cause : ExnKind)
deriving DecidableEq

/-- The boolean value actually returned to the pool. -/
def FileResult.toBool : FileResult → Bool
  | .success => true
  | .failedAt _ _ _ => false

/-- Full observable behaviour of one worker run: its result, the list of
stage indices whose command was invoked, and the tracked `current_file`
path when the loop stopped. -/
structure RunResult where
  result : FileResult
  invoked : List Nat
  finalFile : Str
deriving DecidableEq

/-- The loop of lines 144-165: stage `i` is invoked on the tracked current
file; on success `current_file` advances to the stage's declared output
path (line 165), on an exception the loop stops with the failure attributed
to `names[i]` (lines 166-168). -/
def runStagesFrom (currentDir relDir : List Str) (fileName : Str)
    (outcome : Nat → StageOutcome) :
    List Str → Nat → Str → RunResult
  | [], _, cur => ⟨.success, [], cur⟩
  | n :: rest, i, cur =>
    match outcome i with
    | .ok =>
      let r := runStagesFrom currentDir relDir fileName outcome rest (i + 1)
        (joinPath (resolveOutput currentDir n relDir fileName))
      ⟨r.result, i :: r.invoked, r.finalFile⟩
    | .exn e => ⟨.failedAt i n e, [i], cur⟩

/-- `process_single_file` (lines 133-173): run all stages starting from the
original discovered file `baseDirs ++ relDir / fileName`. -/
def processSingleFile (currentDir baseDirs relDir : List Str) (fileName : Str)
    (names : List Str) (outcome : Nat → StageOutcome) : RunResult :=
  runStagesFrom currentDir relDir fileName outcome names 0
    (joinPath ⟨baseDirs ++ relDir, fileName⟩)

/-- The timeout attached to stage invocations in lines 159-164: the
in-process SimpleITK registration is called directly as a Python function
(no deadline), every other stage goes through
`check_call(cmd, stderr=DEVNULL, timeout=timeout)`. -/
def invocationTimeout (timeout : Nat) (stepName : Str) : Option Nat :=
  if stepName = "mni_registered".data then none else some timeout

/-- The stage names appended when all three flags are set
(preprocess.py lines 78-129, preprocess_gpu.py lines 351-390). -/
def allStageNames : List Str :=
  ["skull_stripped".data, "mni_registered".data, "segmented".data]

/-! ## The worker pool (preprocess.py, lines 175-227)

`preprocessAndReplace` submits one `process_single_file` task per
discovered file, then tallies: a `True` result increments `successful`, a
`False` result increments `failed`, and an exception rethrown by
`future.result()` is caught and also increments `failed`. -/

/-- A discovered input file, identified by its directory relative to the
dataset root plus its basename. -/
structure InputFile where
  relDir : List Str
  fileName : Str
deriving DecidableEq

/-- Environment for a pool run: per-file stage outcomes, plus an optional
fault that escapes the worker entirely (rethrown by `future.result()` and
caught at lines 220-222). -/
structure PoolEnv where
  outcome : InputFile → Nat → StageOutcome
  crash : InputFile → Option ExnKind

/-- Whether one file is tallied as successful (lines 212-222). -/
def fileTally (currentDir baseDirs : List Str) (names : List Str)
    (env : PoolEnv) (f : InputFile) : Bool :=
  match env.crash f with
  | some _ => false
  | none =>
    (processSingleFile currentDir baseDirs f.relDir f.fileName names
      (env.outcome f)).result.toBool

/-- The per-file results collected by the pool, one per submitted file. -/
def poolResults (currentDir baseDirs : List Str) (names : List Str)
    (env : PoolEnv) (files : List InputFile) : List (InputFile × Bool) :=
  files.map (fun f => (f, fileTally currentDir baseDirs names env f))

/-- Final `Successful:` count (line 226). -/
def successfulCount (currentDir baseDirs : List Str) (names : List Str)
    (env : PoolEnv) (files : List InputFile) : Nat :=
  (poolResults currentDir baseDirs names env files).countP (fun r => r.2)

/-- Final `Failed:` count (line 227). -/
def failedCount (currentDir baseDirs : List Str) (names : List Str)
    (env : PoolEnv) (files : List InputFile) : Nat :=
  (poolResults currentDir baseDirs names env files).countP (fun r => !r.2)

/-- Outcome of a whole `preprocessAndReplace` call. -/
inductive RunOutcome
  | earlyReturn (msg : Str)
  | completed (successful failed : Nat)
  | raised (e : Str)
deriving DecidableEq

/-- Whether the run terminated by raising an exception. -/
def RunOutcome.isRaised : RunOutcome → Bool
  | .raised _ => true
  | _ => false

/-- The message printed at line 182 when discovery finds nothing. -/
def noFilesMsg (baseDir : Str) : Str :=
  "No .nii.gz files found in ".data ++ baseDir ++ "/ADNI/**/**/**/**/".data

/-- `preprocessAndReplace` (lines 175-227): with no discovered files it
prints a message and returns normally before the pool is created
(lines 181-183); otherwise the pool runs every file to completion and the
summary counts are printed.  No code path raises. -/
def preprocessAndReplaceRun (baseDir : Str) (currentDir baseDirs : List Str)
    (names : List Str) (env : PoolEnv) (files : List InputFile) : RunOutcome :=
  if files.isEmpty then .earlyReturn (noFilesMsg baseDir)
  else .completed (successfulCount currentDir baseDirs names env files)
    (failedCount currentDir baseDirs names env files)

/-- A fully benign environment: every stage succeeds, no worker crashes. -/
def trivEnv : PoolEnv := ⟨fun _ _ => StageOutcome.ok, fun _ => none⟩

/-! ### Pipeline lemmas -/

theorem runStagesFrom_fail (cd rd : List Str) (fn : Str)
    (outcome : Nat → StageOutcome) :
    ∀ (names : List Str) (k i : Nat) (cur : Str) (e : ExnKind),
      k < names.length → outcome (i + k) = .exn e →
      (∀ j, j < k → outcome (i + j) = .ok) →
      (runStagesFrom cd rd fn outcome names i cur).result
          = .failedAt (i + k) (names.getD k []) e ∧
      ∀ j ∈ (runStagesFrom cd rd fn outcome names i cur).invoked, j ≤ i + k := by
  intro names
  induction names with
  | nil => intro k i cur e hk; simp at hk
  | cons n rest ih =>
    intro k i cur e hk hke hpre
    cases k with
    | zero =>
      have h0 : outcome i = .exn e := by simpa using hke
      simp [runStagesFrom, h0]
    | succ k' =>
      have h0 : outcome i = .ok := by simpa using hpre 0 (Nat.succ_pos _)
      have hke' : outcome (i + 1 + k') = .exn e := by
        rw [show i + 1 + k' = i + (k' + 1) by omega]; exact hke
      have hpre' : ∀ j, j < k' → outcome (i + 1 + j) = .ok := by
        intro j hj
        rw [show i + 1 + j = i + (j + 1) by omega]
        exact hpre (j + 1) (by omega)
      have hk' : k' < rest.length := by simpa using hk
      obtain ⟨hres, hinv⟩ := ih k' (i + 1)
        (joinPath (resolveOutput cd n rd fn)) e hk' hke' hpre'
      constructor
      · simp only [runStagesFrom, h0]
        rw [hres]
        congr 1
        omega
      · intro j hj
        simp only [runStagesFrom, h0, List.mem_cons] at hj
        rcases hj with rfl | hj
        · omega
        · have := hinv j hj
          omega

theorem runStagesFrom_total (cd rd : List Str) (fn : Str)
    (outcome : Nat → StageOutcome) :
    ∀ (names : List Str) (i : Nat) (cur : Str),
      (runStagesFrom cd rd fn outcome names i cur).result = .success ∨
      ∃ k e, k < names.length ∧ outcome (i + k) = .exn e ∧
        (runStagesFrom cd rd fn outcome names i cur).result
          = .failedAt (i + k) (names.getD k []) e := by
  intro names
  induction names with
  | nil => intro i cur; left; rfl
  | cons n rest ih =>
    intro i cur
    cases h0 : outcome i with
    | ok =>
      rcases ih (i + 1) (joinPath (resolveOutput cd n rd fn)) with hs | ⟨k, e, hk, hke, hres⟩
      · left; simp [runStagesFrom, h0, hs]
      · right
        refine ⟨k + 1, e, by simpa using hk, ?_, ?_⟩
        · rw [show i + (k + 1) = i + 1 + k by omega]; exact hke
        · simp only [runStagesFrom, h0]
          rw [hres]
          congr 1
          omega
    | exn e =>
      right
      exact ⟨0, e, by simp, by simpa using h0, by simp [runStagesFrom, h0]⟩

theorem runStagesFrom_allOk_final (cd rd : List Str) (fn : Str)
    (outcome : Nat → StageOutcome) (hok : ∀ j, outcome j = .ok) :
    ∀ (pre : List Str) (n : Str) (i : Nat) (cur : Str),
      (runStagesFrom cd rd fn outcome (pre ++ [n]) i cur).finalFile
        = joinPath (resolveOutput cd n rd fn) := by
  intro pre
  induction pre with
  | nil => intro n i cur; simp [runStagesFrom, hok i]
  | cons m rest ih =>
    intro n i cur
    simp only [List.cons_append, runStagesFrom, hok i]
    exact ih n (i + 1) _

theorem countP_add_countP_not {α : Type} (p : α → Bool) (l : List α) :
    l.countP p + l.countP (fun a => !(p a)) = l.length := by
  induction l with
  | nil => simp
  | cons a t ih =>
    by_cases h : p a = true
    · simp [List.countP_cons, h]
      omega
    · have h' : p a = false := by simpa using h
      simp [List.countP_cons, h']
      omega

/-! ### Claim theorems about the loop and the pool -/

/-- **C1**: the pool produces exactly one result per discovered file, in
bijection with the submitted files, and the final successful and failed
counts always sum to the number of discovered files — whatever the stage
outcomes and worker crashes. -/
theorem c1_pool_exactly_n_results (cd bd : List Str) (names : List Str)
    (env : PoolEnv) (files : List InputFile) :
    (poolResults cd bd names env files).map Prod.fst = files ∧
    (poolResults cd bd names env files).length = files.length ∧
    successfulCount cd bd names env files + failedCount cd bd names env files
      = files.length := by
  refine ⟨?_, ?_, ?_⟩
  · rw [poolResults, List.map_map]
    exact List.map_id files
  · simp [poolResults]
  · have h := countP_add_countP_not (fun r : InputFile × Bool => r.2)
      (poolResults cd bd names env files)
    have hlen : (poolResults cd bd names env files).length = files.length := by
      simp [poolResults]
    rw [hlen] at h
    exact h

/-- **C2**: if every stage before `k` succeeds for a file and stage `k`
raises, the worker stops there: the result is attributed to stage `k`
(index and name `names[k]`, plus the cause), and no stage with an index
greater than `k` is ever invoked. -/
theorem c2_stage_failure_stops_pipeline (cd bd rd : List Str) (fn : Str)
    (names : List Str) (outcome : Nat → StageOutcome) (k : Nat) (e : ExnKind)
    (hk : k < names.length) (hfail : outcome k = .exn e)
    (hpre : ∀ j, j < k → outcome j = .ok) :
    (processSingleFile cd bd rd fn names outcome).result
        = .failedAt k (names.getD k []) e ∧
    ∀ j ∈ (processSingleFile cd bd rd fn names outcome).invoked, j ≤ k := by
  have h := runStagesFrom_fail cd rd fn outcome names k 0
    (joinPath ⟨bd ++ rd, fn⟩) e hk (by simpa using hfail)
    (by intro j hj; simpa using hpre j hj)
  simpa [processSingleFile] using h

/-- Witness for C2: three-stage pipeline, stage 0 succeeds, stage 1 raises
`CalledProcessError`; the result names `mni_registered`. -/
theorem c2_stage_failure_stops_pipeline_witness :
    (1 : Nat) < allStageNames.length ∧
    (processSingleFile ["/cur".data] ["/data".data] ["a".data] ("s.nii".data)
        allStageNames
        (fun i => if i = 0 then .ok else .exn .calledProcessError)).result
      = .failedAt 1 ("mni_registered".data) .calledProcessError :=
  ⟨by decide,
    (c2_stage_failure_stops_pipeline ["/cur".data] ["/data".data] ["a".data]
      ("s.nii".data) allStageNames
      (fun i => if i = 0 then .ok else .exn .calledProcessError) 1
      .calledProcessError (by decide) (by decide)
      (fun j hj => by
        have hj0 : j = 0 := Nat.lt_one_iff.mp hj
        subst hj0; rfl)).1⟩

/-- **C5** (counterexample): not every stage invocation carries a deadline.
The in-process registration stage `mni_registered` is called directly as a
Python function (line 161) with no timeout at all, while the claim says
every stage invocation, external or in-process, carries one. -/
theorem c5_inprocess_stage_has_no_deadline :
    ("mni_registered".data : Str) ∈ allStageNames ∧
    (invocationTimeout 1800 ("mni_registered".data)).isSome = false := by
  constructor
  · decide
  · decide

/-- **C5** (amended): every *external* stage invocation carries the global
default timeout; a `TimeoutExpired` raised at stage `k` is caught and
converted to a failure of that file attributed to stage `k`; and forcing
one file to time out leaves every other file's tally unchanged.  The
in-process registration stage carries no deadline. -/
theorem c5_external_timeout_isolated_failure :
    (∀ (t : Nat) (n : Str), n ∈ allStageNames → n ≠ "mni_registered".data →
      invocationTimeout t n = some t) ∧
    (∀ (cd bd rd : List Str) (fn : Str) (names : List Str)
        (outcome : Nat → StageOutcome) (k : Nat),
      k < names.length → outcome k = .exn .timeoutExpired →
      (∀ j, j < k → outcome j = .ok) →
      (processSingleFile cd bd rd fn names outcome).result
        = .failedAt k (names.getD k []) .timeoutExpired) ∧
    (∀ (cd bd : List Str) (names : List Str) (env : PoolEnv) (f g : InputFile),
      g ≠ f →
      fileTally cd bd names
        { env with
            outcome := Function.update env.outcome f
              (fun _ => .exn .timeoutExpired) } g
      = fileTally cd bd names env g) := by
  refine ⟨?_, ?_, ?_⟩
  · intro t n _ hne
    rw [invocationTimeout, if_neg hne]
  · intro cd bd rd fn names outcome k hk hke hpre
    have h := runStagesFrom_fail cd rd fn outcome names k 0
      (joinPath ⟨bd ++ rd, fn⟩) .timeoutExpired hk (by simpa using hke)
      (by intro j hj; simpa using hpre j hj)
    simpa [processSingleFile] using h.1
  · intro cd bd names env f g hgf
    rw [fileTally, fileTally]
    have hcrash : ({ env with
        outcome := Function.update env.outcome f
          (fun _ => .exn .timeoutExpired) } : PoolEnv).crash g = env.crash g := rfl
    rw [hcrash]
    have hout : Function.update env.outcome f
        (fun _ => .exn .timeoutExpired) g = env.outcome g :=
      Function.update_noteq hgf _ _
    cases env.crash g with
    | some e => rfl
    | none => rw [show ({ env with
        outcome := Function.update env.outcome f
          (fun _ => .exn .timeoutExpired) } : PoolEnv).outcome g
        = env.outcome g from hout]

/-- Witness for C5 (amended): concrete external stage gets the default
timeout; a concrete timeout at stage 1 is attributed to `mni_registered`;
a forced timeout on one file leaves another file's tally unchanged. -/
theorem c5_external_timeout_isolated_failure_witness :
    invocationTimeout 1800 ("skull_stripped".data) = some 1800 ∧
    (processSingleFile ["/cur".data] ["/data".data] ["a".data] ("s.nii".data)
        allStageNames
        (fun i => if i = 0 then .ok else .exn .timeoutExpired)).result
      = .failedAt 1 ("mni_registered".data) .timeoutExpired ∧
    fileTally ["/cur".data] ["/data".data] allStageNames
        { trivEnv with
            outcome := Function.update trivEnv.outcome
              (⟨["b".data], "b.nii".data⟩ : InputFile)
              (fun _ => .exn .timeoutExpired) }
        ⟨["g".data], "g.nii".data⟩
      = fileTally ["/cur".data] ["/data".data] allStageNames trivEnv
        ⟨["g".data], "g.nii".data⟩ :=
  ⟨c5_external_timeout_isolated_failure.1 1800 ("skull_stripped".data)
      (by decide) (by decide),
    c5_external_timeout_isolated_failure.2.1 ["/cur".data] ["/data".data]
      ["a".data] ("s.nii".data) allStageNames
      (fun i => if i = 0 then .ok else .exn .timeoutExpired) 1
      (by decide) (by decide)
      (fun j hj => by
        have hj0 : j = 0 := Nat.lt_one_iff.mp hj
        subst hj0; rfl),
    c5_external_timeout_isolated_failure.2.2 ["/cur".data] ["/data".data]
      allStageNames trivEnv ⟨["b".data], "b.nii".data⟩
      ⟨["g".data], "g.nii".data⟩ (by decide)⟩

/-- **C6**: every worker run reaches a terminal result: either success, or
a failure attributed to an actual fault of some stage `k`, carrying that
stage's name and the cause — faults never escape the worker.  Moreover a
file's tally depends only on its own stage outcomes and its own crash
status: changing the faults of one file cannot change any other file's
result. -/
theorem c6_worker_faults_contained :
    (∀ (cd bd rd : List Str) (fn : Str) (names : List Str)
        (outcome : Nat → StageOutcome),
      (processSingleFile cd bd rd fn names outcome).result = .success ∨
      ∃ k e, k < names.length ∧ outcome k = .exn e ∧
        (processSingleFile cd bd rd fn names outcome).result
          = .failedAt k (names.getD k []) e) ∧
    (∀ (cd bd : List Str) (names : List Str) (env env' : PoolEnv)
        (f : InputFile),
      (∀ g, g ≠ f → env.outcome g = env'.outcome g) →
      (∀ g, g ≠ f → env.crash g = env'.crash g) →
      ∀ g, g ≠ f →
        fileTally cd bd names env g = fileTally cd bd names env' g) := by
  constructor
  · intro cd bd rd fn names outcome
    have h := runStagesFrom_total cd rd fn outcome names 0
      (joinPath ⟨bd ++ rd, fn⟩)
    rcases h with hs | ⟨k, e, hk, hke, hres⟩
    · left; exact hs
    · right; exact ⟨k, e, hk, by simpa using hke, by simpa [processSingleFile] using hres⟩
  · intro cd bd names env env' f hout hcrash g hgf
    rw [fileTally, fileTally, hout g hgf, hcrash g hgf]

/-- Witness for C6: a fault injected into one file does not change another
file's tally. -/
theorem c6_worker_faults_contained_witness :
    (⟨["g".data], "g.nii".data⟩ : InputFile) ≠ ⟨["b".data], "b.nii".data⟩ ∧
    fileTally ["/cur".data] ["/data".data] allStageNames
        ⟨fun _ _ => .ok, fun _ => none⟩ ⟨["g".data], "g.nii".data⟩
      = fileTally ["/cur".data] ["/data".data] allStageNames
        ⟨fun g _ => if g = ⟨["b".data], "b.nii".data⟩ then .exn .otherExn else .ok,
          fun g => if g = ⟨["b".data], "b.nii".data⟩ then some .otherExn else none⟩
        ⟨["g".data], "g.nii".data⟩ :=
  ⟨by decide,
    c6_worker_faults_contained.2 ["/cur".data] ["/data".data] allStageNames
      ⟨fun _ _ => .ok, fun _ => none⟩
      ⟨fun g _ => if g = ⟨["b".data], "b.nii".data⟩ then .exn .otherExn else .ok,
        fun g => if g = ⟨["b".data], "b.nii".data⟩ then some .otherExn else none⟩
      ⟨["b".data], "b.nii".data⟩
      (fun g hg => by funext i; simp [hg])
      (fun g hg => by simp [hg])
      ⟨["g".data], "g.nii".data⟩ (by decide)⟩

/-- **C9** (counterexample): with an empty discovered set the run does not
fail with any error — there is no `DiscoveryError` anywhere in the code.
`preprocessAndReplace` merely prints a message and returns normally
(lines 181-183), after which `__main__` goes on to print
`Preprocessing Completed`. -/
theorem c9_empty_discovery_returns_normally :
    preprocessAndReplaceRun ("/data".data) ["/cur".data] ["/data".data]
        allStageNames trivEnv []
      = .earlyReturn (noFilesMsg ("/data".data)) ∧
    (preprocessAndReplaceRun ("/data".data) ["/cur".data] ["/data".data]
        allStageNames trivEnv []).isRaised = false := by
  constructor
  · rfl
  · rfl

/-- **C9** (amended): an empty discovery makes the run print the no-files
message and return before any worker starts; it never raises (on any
input), and a non-empty discovery always proceeds to a completed pool run
whose summary counts sum to the file count. -/
theorem c9_empty_discovery_early_return (baseDir : Str) (cd bd : List Str)
    (names : List Str) (env : PoolEnv) (files : List InputFile) :
    (files = [] → preprocessAndReplaceRun baseDir cd bd names env files
        = .earlyReturn (noFilesMsg baseDir)) ∧
    (files ≠ [] → preprocessAndReplaceRun baseDir cd bd names env files
        = .completed (successfulCount cd bd names env files)
            (failedCount cd bd names env files) ∧
      successfulCount cd bd names env files + failedCount cd bd names env files
        = files.length) ∧
    (preprocessAndReplaceRun baseDir cd bd names env files).isRaised = false := by
  refine ⟨?_, ?_, ?_⟩
  · intro h
    subst h
    rfl
  · intro h
    have hne : files.isEmpty = false := by
      cases files with
      | nil => exact absurd rfl h
      | cons a t => rfl
    refine ⟨by rw [preprocessAndReplaceRun, hne]; rfl, ?_⟩
    exact (c1_pool_exactly_n_results cd bd names env files).2.2
  · rw [preprocessAndReplaceRun]
    cases hf : files.isEmpty <;> simp [RunOutcome.isRaised]

/-- Witness for C9 (amended): both branches exercised on concrete inputs. -/
theorem c9_empty_discovery_early_return_witness :
    preprocessAndReplaceRun ("/d".data) [] [] allStageNames trivEnv []
      = .earlyReturn (noFilesMsg ("/d".data)) ∧
    (preprocessAndReplaceRun ("/d".data) [] [] allStageNames trivEnv
        [⟨["a".data], "s.nii".data⟩]).isRaised = false :=
  ⟨(c9_empty_discovery_early_return ("/d".data) [] [] allStageNames trivEnv []).1
      rfl,
    (c9_empty_discovery_early_return ("/d".data) [] [] allStageNames trivEnv
      [⟨["a".data], "s.nii".data⟩]).2.2⟩

/-! ## Spec-side path resolver (for claim C4)

Spec §4.2 describes the output path as carrying an underscore-joined
suffix of the *accumulated* stage-name chain, under an output root named
for the chain.  The definition below follows those words so that it can be
compared with `resolveOutput`, which is what the code computes. -/

/-- `'_'.join(chain)`. -/
def joinUnderscore : List Str → Str
  | [] => []
  | [s] => s
  | s :: t :: rest => s ++ '_' :: joinUnderscore (t :: rest)

/-- Spec-side resolver, following the words of §4.2: strip the multi-part
volume extension from the stem, append an underscore-joined suffix of the
accumulated stage-name chain, re-append the canonical output extension,
and place the file under an output root named for the chain, preserving
the relative directory. -/
def specResolve (root relDir : List Str) (fileName : Str) (chain : List Str) :
    OutPath :=
  ⟨root ++ joinUnderscore chain :: relDir,
    baseNameOf fileName ++ ('_' :: joinUnderscore chain) ++ ".nii.gz".data⟩

/-- **C4** (counterexample): at the second stage of the chain
`[skull_stripped, mni_registered]` the spec formula puts the file under
`skull_stripped_mni_registered/` with suffix
`_skull_stripped_mni_registered`, while the code (lines 148-157) uses only
the current stage name `mni_registered` for both the output root and the
suffix. -/
theorem c4_spec_chain_suffix_mismatch :
    specResolve ["/cur".data] ["a".data] ("scan1.nii".data)
        ["skull_stripped".data, "mni_registered".data]
      ≠ resolveOutput ["/cur".data] ("mni_registered".data) ["a".data]
        ("scan1.nii".data) := by
  decide

/-- **C4** (amended): the output path of stage `i` strips the extension,
appends `_{names[i]}` (the current stage's name only, not the accumulated
chain), re-appends `.nii.gz`, and lives under a root named `names[i]`
preserving the relative directory; it is entirely independent of the other
names in the chain. -/
theorem c4_step_path_uses_single_stage_name (cd rd : List Str)
    (names : List Str) (i : Nat) (fn : Str) (_hi : i < names.length) :
    stepOutputPath cd names i rd fn
      = ⟨cd ++ (names.getD i []) :: rd,
          baseNameOf fn ++ ('_' :: names.getD i []) ++ ".nii.gz".data⟩ ∧
    ∀ names' : List Str, names.getD i [] = names'.getD i [] →
      stepOutputPath cd names i rd fn = stepOutputPath cd names' i rd fn := by
  constructor
  · rfl
  · intro names' h
    rw [stepOutputPath, stepOutputPath, h]

/-- Witness for C4 (amended): stage index 1 of the full chain. -/
theorem c4_step_path_uses_single_stage_name_witness :
    (1 : Nat) < allStageNames.length ∧
    stepOutputPath ["/cur".data] allStageNames 1 ["a".data] ("scan1.nii".data)
      = ⟨["/cur".data] ++ (allStageNames.getD 1 []) :: ["a".data],
          baseNameOf ("scan1.nii".data) ++ ('_' :: allStageNames.getD 1 [])
            ++ ".nii.gz".data⟩ :=
  ⟨by decide,
    (c4_step_path_uses_single_stage_name ["/cur".data] ["a".data] allStageNames
      1 ("scan1.nii".data) (by decide)).1⟩

/-! ## Stage write behaviour (for claims C7 and C10) -/

/-- A filesystem access performed by a stage implementation. -/
inductive FsOp
  | read (p : Str)
  | write (p : Str)
deriving DecidableEq

/-- `mniCommand` (preprocess.py lines 93-108): reads the MNI template and
the moving image, computes the registration in memory, then writes the
resampled image with `sitk.WriteImage(resampled, output_path)` — directly
to the declared output path, with no temporary staging location and no
rename step. -/
def mniCommandTrace (mniTemplate file outputPath : Str) : List FsOp :=
  [.read mniTemplate, .read file, .write outputPath]

/-- `GPUBrainExtractor.extract_brain` (preprocess_gpu.py lines 92-120):
loads the input with `nib.load`, masks it, and saves the result with
`nib.save(brain_img, output_path)` — again directly to the declared
output path. -/
def extractBrainTrace (inputPath outputPath : Str) : List FsOp :=
  [.read inputPath, .write outputPath]

/-- The write discipline asserted by the claim (spec §4.3): every write a
stage performs stays away from the declared output path, which only an
atomic publish step may produce on success. -/
def writesAvoidDeclared (trace : List FsOp) (declared : Str) : Bool :=
  trace.all (fun op => !(op == FsOp.write declared))

/-- **C7** (counterexample): the registration stage writes directly at its
declared output path — there is no private temporary location and no
atomic publish — so a failure during or after the write can leave a
partially written file visible there. -/
theorem c7_stage_writes_declared_path_directly :
    writesAvoidDeclared
      (mniCommandTrace ("/tpl.nii.gz".data) ("/in/s.nii".data)
        ("/out/s_mni_registered.nii.gz".data))
      ("/out/s_mni_registered.nii.gz".data) = false ∧
    writesAvoidDeclared
      (extractBrainTrace ("/in/s.nii".data)
        ("/out/s_skull_stripped.nii.gz".data))
      ("/out/s_skull_stripped.nii.gz".data) = false := by
  constructor
  · decide
  · decide

/-- **C7** (amended): every write the registration stage and the GPU brain
extractor perform targets exactly the declared output path — they write
in place, with no temporary staging. -/
theorem c7_all_writes_target_declared_path (t f o : Str) :
    (∀ p, FsOp.write p ∈ mniCommandTrace t f o → p = o) ∧
    FsOp.write o ∈ mniCommandTrace t f o ∧
    (∀ p, FsOp.write p ∈ extractBrainTrace f o → p = o) ∧
    FsOp.write o ∈ extractBrainTrace f o := by
  refine ⟨?_, ?_, ?_, ?_⟩
  · intro p hp
    simp [mniCommandTrace] at hp
    exact hp
  · simp [mniCommandTrace]
  · intro p hp
    simp [extractBrainTrace] at hp
    exact hp
  · simp [extractBrainTrace]

/-- Witness for C7 (amended): concrete paths. -/
theorem c7_all_writes_target_declared_path_witness :
    FsOp.write ("/o.nii.gz".data) ∈
      mniCommandTrace ("/t.nii.gz".data) ("/i.nii".data) ("/o.nii.gz".data) ∧
    ("/o.nii.gz".data : Str) = "/o.nii.gz".data :=
  ⟨(c7_all_writes_target_declared_path ("/t.nii.gz".data) ("/i.nii".data)
      ("/o.nii.gz".data)).2.1,
    (c7_all_writes_target_declared_path ("/t.nii.gz".data) ("/i.nii".data)
      ("/o.nii.gz".data)).1 ("/o.nii.gz".data) (by decide)⟩

/-! ## GPU-vs-CPU dispatch (for claim C8, preprocess_gpu.py) -/

/-- How a stage is invoked inside `process_single_file_gpu`. -/
inductive InvocationKind
  | gpuCall
  | cpuSubprocess
deriving DecidableEq

/-- The per-stage branch at lines 273-282: the GPU three-argument call is
taken iff `use_gpu and torch.cuda.is_available()` holds *at runtime inside
the worker*, otherwise the command is run through `check_call`. -/
def gpuStageDispatch (useGpu cudaAvailable : Bool) : InvocationKind :=
  if useGpu && cudaAvailable then .gpuCall else .cpuSubprocess

/-- The invocation kinds chosen for one file's pipeline run. -/
def processFileGpuInvocations (names : List Str) (useGpu cudaAvailable : Bool) :
    List InvocationKind :=
  names.map (fun _ => gpuStageDispatch useGpu cudaAvailable)

/-- The command implementations selectable at build time. -/
inductive CommandImpl
  | gpuRobex | robexScript | gpuMni | mniFlirt | gpuSeg | segFast
deriving DecidableEq

/-- The command-line flags consumed at build time. -/
structure GpuArgs where
  robex : Bool
  mniReg : Bool
  segmentation : Bool
  gpu : Bool

/-- The `__main__` block of preprocess_gpu.py (lines 351-390): the command
list is assembled once, before any file is processed, from the flags. -/
def buildCommands (a : GpuArgs) : List CommandImpl :=
  (if a.robex then [if a.gpu then CommandImpl.gpuRobex else CommandImpl.robexScript]
    else []) ++
  (if a.mniReg then [if a.gpu then CommandImpl.gpuMni else CommandImpl.mniFlirt]
    else []) ++
  (if a.segmentation then [if a.gpu then CommandImpl.gpuSeg else CommandImpl.segFast]
    else [])

/-- **C8** (counterexample): with acceleration requested at build time, the
invocation actually used for a file is re-decided at runtime inside the
worker — the same build-time configuration yields a GPU call when CUDA is
available in the worker and a CPU subprocess call when it is not.  This
refutes the claim that the choice is made exactly once at pipeline-build
time and never re-decided per file. -/
theorem c8_dispatch_redecided_at_runtime :
    processFileGpuInvocations [("skull_stripped".data : Str)] true true
      ≠ processFileGpuInvocations ["skull_stripped".data] true false := by
  decide

/-- **C8** (amended): the command *list* is fixed once at build time from
the flags, but the accelerated-vs-CPU invocation path is re-evaluated per
file inside the worker: with acceleration requested, runtime CUDA
availability changes every stage's invocation kind; without it, the
invocation kind never depends on runtime state. -/
theorem c8_dispatch_depends_on_runtime_gpu (names : List Str)
    (h : names ≠ []) :
    processFileGpuInvocations names true true
      ≠ processFileGpuInvocations names true false ∧
    (∀ c c', processFileGpuInvocations names false c
      = processFileGpuInvocations names false c') ∧
    buildCommands ⟨true, true, true, true⟩
      = [CommandImpl.gpuRobex, CommandImpl.gpuMni, CommandImpl.gpuSeg] := by
  refine ⟨?_, ?_, rfl⟩
  · cases names with
    | nil => exact absurd rfl h
    | cons n rest =>
      simp [processFileGpuInvocations, gpuStageDispatch]
  · intro c c'
    simp [processFileGpuInvocations, gpuStageDispatch]

/-- Witness for C8 (amended): the full stage-name list. -/
theorem c8_dispatch_depends_on_runtime_gpu_witness :
    allStageNames ≠ [] ∧
    processFileGpuInvocations allStageNames true true
      ≠ processFileGpuInvocations allStageNames true false :=
  ⟨by decide,
    (c8_dispatch_depends_on_runtime_gpu allStageNames (by decide)).1⟩

/-! ## Segmentation output paths (for claim C10) -/

/-- Python `str.replace(pat, '')` for a non-empty pattern: scan left to
right, deleting every occurrence.  The fuel argument (initially the string
length) only serves structural termination; each step consumes at least
one character, so it never runs out. -/
def pyReplaceAux (pat : Str) : Nat → Str → Str
  | _, [] => []
  | 0, s => s
  | fuel + 1, c :: rest =>
    if List.isPrefixOf pat (c :: rest) then
      pyReplaceAux pat fuel ((c :: rest).drop pat.length)
    else c :: pyReplaceAux pat fuel rest

/-- `s.replace(pat, "")` as used at line 124. -/
def pyReplace (s pat : Str) : Str :=
  match pat with
  | [] => s
  | _ :: _ => pyReplaceAux pat s.length s

/-- The canonical output extension `.nii.gz`. -/
def niiGz : Str := ".nii.gz".data

/-- `segmentationCommand` (preprocess.py lines 115-127): the FAST argument
vector; the `-o` basename is the declared output path with every
`.nii.gz` occurrence removed. -/
def segmentationCommandArgv (fslDir file outputPath : Str) : List Str :=
  [fslDir ++ "/bin/fast".data,
    "-t".data, "1".data,
    "-n".data, "3".data,
    "-H".data, "0.1".data,
    "-I".data, "8".data,
    "-l".data, "20.0".data,
    "-o".data, pyReplace outputPath niiGz,
    "-B".data,
    "-b".data, file]

/-- Modelled from the spec: the external FAST binary is not part of this
repository; §6 specifies the tissue-segmentation collaborator as producing
one output volume per tissue class derived from its output basename, and
the in-source GPU analogue `GPUSegmentation.segment_tissues`
(preprocess_gpu.py lines 226-243) writes exactly the pve-suffixed paths
below for the basename `output_path.replace('.nii.gz', '')`. -/
def segTissueWrites (basePath : Str) : List Str :=
  [basePath ++ "_pve_1.nii.gz".data,
    basePath ++ "_pve_2.nii.gz".data,
    basePath ++ "_pve_0.nii.gz".data]

theorem pyReplaceAux_length (pat : Str) :
    ∀ (fuel : Nat) (s : Str),
      ∃ k, s.length = (pyReplaceAux pat fuel s).length + k * pat.length := by
  intro fuel
  induction fuel with
  | zero =>
    intro s
    cases s with
    | nil => exact ⟨0, by simp [pyReplaceAux]⟩
    | cons c rest => exact ⟨0, by simp [pyReplaceAux]⟩
  | succ fl ih =>
    intro s
    cases s with
    | nil => exact ⟨0, by simp [pyReplaceAux]⟩
    | cons c rest =>
      by_cases hp : List.isPrefixOf pat (c :: rest) = true
      · obtain ⟨k, hk⟩ := ih ((c :: rest).drop pat.length)
        refine ⟨k + 1, ?_⟩
        have happ := isPrefixOf_append_drop pat (c :: rest) hp
        have hlen : (c :: rest).length
            = pat.length + ((c :: rest).drop pat.length).length := by
          conv_lhs => rw [← happ]
          simp [List.length_append]
        rw [pyReplaceAux, if_pos hp, Nat.succ_mul]
        omega
      · obtain ⟨k, hk⟩ := ih rest
        refine ⟨k, ?_⟩
        rw [pyReplaceAux, if_neg hp]
        simp only [List.length_cons]
        omega

theorem pyReplace_length (s pat : Str) :
    ∃ k, s.length = (pyReplace s pat).length + k * pat.length := by
  cases pat with
  | nil => exact ⟨0, by simp [pyReplace]⟩
  | cons c t => exact pyReplaceAux_length (c :: t) s.length s

/-- **C10**: the segmentation command hands FAST the `-o` basename obtained
by stripping `.nii.gz` from the declared output path; the tissue-class
volumes are written only at pve-suffixed paths derived from that basename,
and the declared output path itself is never among them (their lengths
differ from the declared path's by 13 characters while stripping removes
multiples of 7, so no file ever appears at the declared path); yet after a
successful segmentation stage the pipeline advances the tracked current
file to exactly that declared path, which any subsequent stage would
read. -/
theorem c10_segmentation_never_writes_declared_path :
    (∀ fslDir file declared : Str,
      (segmentationCommandArgv fslDir file declared).getD 12 []
        = pyReplace declared niiGz) ∧
    (∀ declared : Str, declared ∉ segTissueWrites (pyReplace declared niiGz)) ∧
    (∀ (cd bd rd : List Str) (fn : Str) (pre : List Str)
        (outcome : Nat → StageOutcome),
      (∀ j, outcome j = .ok) →
      (processSingleFile cd bd rd fn (pre ++ ["segmented".data]) outcome).finalFile
        = joinPath (resolveOutput cd ("segmented".data) rd fn)) := by
  refine ⟨?_, ?_, ?_⟩
  · intro fslDir file declared
    rfl
  · intro declared hmem
    obtain ⟨k, hk⟩ := pyReplace_length declared niiGz
    have h7 : niiGz.length = 7 := rfl
    rw [h7] at hk
    simp only [segTissueWrites, List.mem_cons, List.not_mem_nil, or_false] at hmem
    rcases hmem with h | h | h
    · have hlen := congrArg List.length h
      rw [List.length_append,
        show (("_pve_1.nii.gz".data : Str)).length = 13 from rfl] at hlen
      omega
    · have hlen := congrArg List.length h
      rw [List.length_append,
        show (("_pve_2.nii.gz".data : Str)).length = 13 from rfl] at hlen
      omega
    · have hlen := congrArg List.length h
      rw [List.length_append,
        show (("_pve_0.nii.gz".data : Str)).length = 13 from rfl] at hlen
      omega
  · intro cd bd rd fn pre outcome hok
    exact runStagesFrom_allOk_final cd rd fn outcome hok pre ("segmented".data) 0 _

/-- Witness for C10: a concrete declared path is not among the written pve
paths, and a concrete all-success run ends with `current_file` at the
declared segmentation output path. -/
theorem c10_segmentation_never_writes_declared_path_witness :
    ("/cur/segmented/a/s_segmented.nii.gz".data : Str)
      ∉ segTissueWrites
          (pyReplace ("/cur/segmented/a/s_segmented.nii.gz".data) niiGz) ∧
    (processSingleFile ["/cur".data] ["/data".data] ["a".data] ("s.nii".data)
        ([] ++ ["segmented".data]) (fun _ => .ok)).finalFile
      = joinPath (resolveOutput ["/cur".data] ("segmented".data) ["a".data]
          ("s.nii".data)) :=
  ⟨c10_segmentation_never_writes_declared_path.2.1
      ("/cur/segmented/a/s_segmented.nii.gz".data),
    c10_segmentation_never_writes_declared_path.2.2 ["/cur".data] ["/data".data]
      ["a".data] ("s.nii".data) [] (fun _ => .ok) (fun _ => rfl)⟩

end BrainSpy

